import Mathlib

/-!
Verification of the core algorithm of `battle.py` (quantum battleship hunt).

The shallow embedding below translates the algorithmic portion of the script:

* the two prepared single-qubit circuits `target_qc` and `clear_qc`
  (lines 119-127 of the source) as lists of instructions; measurement
  outcomes are nondeterministic, so a circuit is run against a caller-supplied
  list of outcome bits, one bit consumed per measurement instruction
  (this models `exec_quantum` with `shots=1, memory=True`: the returned
  memory is exactly the list of bits produced at the measure instructions);
* `probe_cell` (lines 152-170) acting on the three module-level counters;
* the random target placement loop (lines 107-113), with the stream of
  `random.randint` draws supplied as an explicit input list;
* the scan loop (lines 190-201).  The two grids are flattened row-major:
  cell `(row, col)` of the `dim × dim` matrices is index `row * dim + col`,
  and the nested `for row / for col` traversal is the traversal of indices
  `0, 1, ..., dim*dim - 1` in order.  The unbounded `while` loop is indexed
  by the number of sweeps performed (`fuel`); all claims proved below are
  invariants of every finite prefix of the run, or statements conditioned on
  the run having stopped.  The `break` structure of the source (check after
  each probe inside the column loop, re-check at each row boundary and at the
  `while` head) is modelled by checking the stop condition after every cell
  step and before every sweep; the row-boundary check of the source is
  behaviourally subsumed because the condition only changes at a probe.

Result-grid encoding follows the source (line 115): `-1` clear, `1` hit,
`0` unknown.  Angles are tracked as rational multiples of π.
-/

namespace QBattle

/-- Configuration constant of the source, line 12: `rotation_angle = math.pi / 310`.
We record angles as rational multiples of π, so this is 1/310. -/
def rotation_angle : ℚ := 1 / 310

/-- Configuration constant of the source, line 13: `cycle_count = 30`. -/
def cycle_count : Nat := 30

/-- Configuration constant of the source, line 14: `max_grid_dim = 10`. -/
def max_grid_dim : Nat := 10

/-- Configuration constant of the source, line 15: `min_grid_dim = 3`. -/
def min_grid_dim : Nat := 3

/-- One instruction of a single-qubit, many-classical-bit circuit:
a rotation `ry θ` (θ a rational multiple of π) or a projective measurement
into classical bit `cbit`. -/
inductive Instr where
  | ry (theta : ℚ)
  | measure (cbit : Nat)
deriving DecidableEq

/-- One iteration of the circuit-building loop (source lines 123-126):
append `ry(2*rotation_angle)` and `measure(0, i)` to the target circuit and
`ry(2*rotation_angle)` to the clear circuit. -/
def buildStep (qcs : List Instr × List Instr) (i : Nat) : List Instr × List Instr :=
  (qcs.1 ++ [Instr.ry (2 * rotation_angle), Instr.measure i],
   qcs.2 ++ [Instr.ry (2 * rotation_angle)])

/-- The pair (target circuit, clear circuit body) after the building loop. -/
def builtPair : List Instr × List Instr :=
  (List.range cycle_count).foldl buildStep ([], [])

/-- The target-present circuit (source line 119 + loop 123-126):
`cycle_count` repetitions of a small rotation each followed by a measurement. -/
def target_qc : List Instr := builtPair.1

/-- The target-absent circuit (source line 120, loop 123-125, line 127):
`cycle_count` small rotations followed by a single measurement. -/
def clear_qc : List Instr := builtPair.2 ++ [Instr.measure 0]

/-- Number of measurement instructions in a circuit. -/
def measureCount : List Instr → Nat
  | [] => 0
  | Instr.ry _ :: rest => measureCount rest
  | Instr.measure _ :: rest => measureCount rest + 1

/-- Total rotation applied by a circuit (sum of all ry angles, in units of π). -/
def totalRy : List Instr → ℚ
  | [] => 0
  | Instr.ry a :: rest => a + totalRy rest
  | Instr.measure _ :: rest => totalRy rest

/-- Run a circuit for one shot against a stream of measurement-outcome bits:
rotations do not touch the classical record, each measurement consumes the
next outcome bit and appends it to the returned memory.  This is the
nondeterministic semantics of `exec_quantum(qc)` with `shots=1`: the result
is the single-shot memory (`res_mem[0]` in the source), as a list of bits. -/
def runCircuit : List Instr → List Bool → List Bool
  | [], _ => []
  | Instr.ry _ :: rest, bits => runCircuit rest bits
  | Instr.measure _ :: rest, bits =>
    match bits with
    | [] => []
    | b :: bs => b :: runCircuit rest bs

/-- The three module-level counters of the source (lines 25-27):
`cycle_executions` counts probes, `targets_hit` decisive hits,
`clear_cells_detected` decisive clears. -/
structure Metrics where
  cycle_executions : Nat
  targets_hit : Nat
  clear_cells_detected : Nat
deriving DecidableEq

/-- `probe_cell(has_target)` (source lines 152-170).  The sampler outcome
bits for this single invocation are the explicit argument `bits`; the
counters are threaded explicitly.  Returns the value written into the result
matrix (`1` hit, `-1` clear, `0` undetermined) together with the updated
counters.  `'1' in res_mem[0]` becomes membership of `true` in the memory;
`res_mem[0][0] == '1'` becomes the head of the memory (the clear circuit
always produces exactly one bit). -/
def probe_cell (has_target : Bool) (bits : List Bool) (m : Metrics) : Int × Metrics :=
  let m1 : Metrics := { m with cycle_executions := m.cycle_executions + 1 }
  let qc_to_use := if has_target then target_qc else clear_qc
  let res_mem := runCircuit qc_to_use bits
  if has_target then
    if true ∈ res_mem then
      (1, { m1 with targets_hit := m1.targets_hit + 1 })
    else
      (0, m1)
  else
    if res_mem.headD false = true then
      (-1, { m1 with clear_cells_detected := m1.clear_cells_detected + 1 })
    else
      (0, m1)

/-- The target placement loop (source lines 107-113), with the stream of
`random.randint(0, grid_dim - 1)` draws supplied as a list of `(row, col)`
pairs.  A draw landing on an already-placed target is rejected; otherwise the
cell is set and `placed` is incremented, until `placed` reaches `tc`.
Returns `none` when the draw stream is exhausted before placement finishes
(the real loop would keep drawing). -/
def placeLoop (dim tc : Nat) : List (Nat × Nat) → Nat → List Bool → Option (List Bool)
  | [], placed, g => if placed < tc then none else some g
  | d :: rest, placed, g =>
    if placed < tc then
      if g.getD (d.1 * dim + d.2) false = true then
        placeLoop dim tc rest placed g
      else
        placeLoop dim tc rest (placed + 1) (g.set (d.1 * dim + d.2) true)
    else some g

/-- Target placement from the all-false grid (source line 104 + loop 107-113). -/
def place (dim tc : Nat) (draws : List (Nat × Nat)) : Option (List Bool) :=
  placeLoop dim tc draws 0 (List.replicate (dim * dim) false)

/-- State touched by a probe: the flattened result matrix (source line 116;
`-1` clear, `1` hit, `0` unknown) and the counters. -/
structure ScanState where
  result : List Int
  metrics : Metrics
deriving DecidableEq

/-- Full state of the scan loop: the scan state, the remaining stream of
per-probe sampler outcomes, and the log of probes performed so far, each
recorded as (state before the probe, state after the probe). -/
structure RunState where
  st : ScanState
  stream : List (List Bool)
  log : List (ScanState × ScanState)
deriving DecidableEq

/-- The stop condition of the scan (source lines 190, 192, 200):
`clear_cells_detected + target_count >= cell_count`. -/
abbrev terminated (tc cc : Nat) (s : ScanState) : Prop :=
  cc ≤ s.metrics.clear_cells_detected + tc

/-- Body of the column loop for one cell (source lines 195-197): if the cell
is still unknown, probe it with the ground truth of the target matrix,
write the outcome into the result matrix, consume one sampler invocation from
the stream, and record the probe in the log; otherwise do nothing. -/
def cellStep (target : List Bool) (i : Nat) (rs : RunState) : RunState :=
  if rs.st.result.getD i 0 = 0 then
    let pm := probe_cell (target.getD i false) (rs.stream.headD []) rs.st.metrics
    let post : ScanState := ⟨rs.st.result.set i pm.1, pm.2⟩
    ⟨post, rs.stream.tail, rs.log ++ [(rs.st, post)]⟩
  else rs

/-- One sweep over a list of (row-major) cell indices with the mid-sweep stop
of the source (lines 191-201): after each cell the stop condition is
re-checked and the sweep ends immediately once it holds. -/
def sweepFrom (target : List Bool) (tc cc : Nat) : List Nat → RunState → RunState
  | [], rs => rs
  | i :: rest, rs =>
    let rs' := cellStep target i rs
    if terminated tc cc rs'.st then rs'
    else sweepFrom target tc cc rest rs'

/-- The outer `while` loop (source line 190), indexed by the number of sweeps
still allowed: stop as soon as the condition holds, otherwise perform a full
row-major sweep and repeat. -/
def runAux (target : List Bool) (tc cc : Nat) : Nat → RunState → RunState
  | 0, rs => rs
  | fuel + 1, rs =>
    if terminated tc cc rs.st then rs
    else runAux target tc cc fuel (sweepFrom target tc cc (List.range cc) rs)

/-- The initial scan state: all-unknown result matrix (source line 116) and
zeroed counters (source lines 25-27). -/
def initState (cc : Nat) : ScanState :=
  ⟨List.replicate cc 0, ⟨0, 0, 0⟩⟩

/-- A full (fuel-bounded) run of the scan loop for a `dim × dim` grid. -/
def runScan (target : List Bool) (tc dim fuel : Nat) (stream : List (List Bool)) : RunState :=
  runAux target tc (dim * dim) fuel ⟨initState (dim * dim), stream, []⟩

/-- A scan-state transition preserves decided cells: every cell that is not
unknown keeps its exact value. -/
def Preserves (s t : ScanState) : Prop :=
  ∀ j, s.result.getD j 0 ≠ 0 → t.result.getD j 0 = s.result.getD j 0

/-! ### Circuit structure lemmas -/

/-- The clear circuit is the uninterrupted rotations followed by the single
final measurement. -/
lemma clear_qc_shape :
    clear_qc = List.replicate cycle_count (Instr.ry (2 * rotation_angle)) ++ [Instr.measure 0] :=
  rfl

lemma totalRy_replicate (n : Nat) (a : ℚ) :
    totalRy (List.replicate n (Instr.ry a)) = n * a := by
  induction n with
  | zero => simp [totalRy]
  | succ k ih => simp [List.replicate_succ, totalRy, ih]; ring

lemma totalRy_append (l l' : List Instr) : totalRy (l ++ l') = totalRy l + totalRy l' := by
  induction l with
  | nil => simp [totalRy]
  | cons x rest ih =>
    cases x with
    | ry a => simp [totalRy, ih]; ring
    | measure c => simp [totalRy, ih]

lemma measureCount_clear_qc : measureCount clear_qc = 1 := by decide

lemma measureCount_target_qc : measureCount target_qc = cycle_count := by decide

/-- Running a circuit consumes one outcome bit per measurement, in order:
the returned memory is the first `measureCount` outcome bits. -/
lemma runCircuit_eq_take (l : List Instr) : ∀ bits, runCircuit l bits = bits.take (measureCount l) := by
  induction l with
  | nil => intro bits; simp [runCircuit, measureCount]
  | cons x rest ih =>
    intro bits
    cases x with
    | ry a => simp [runCircuit, measureCount, ih]
    | measure c =>
      cases bits with
      | nil => simp [runCircuit, measureCount]
      | cons b bs => simp [runCircuit, measureCount, ih, List.take_succ_cons]

/-! ### Characterization of a single probe -/

/-- Full case analysis of the target-present branch of `probe_cell`. -/
lemma probe_cell_true_eq (bits : List Bool) (m : Metrics) :
    probe_cell true bits m =
      if true ∈ bits.take cycle_count then
        (1, ⟨m.cycle_executions + 1, m.targets_hit + 1, m.clear_cells_detected⟩)
      else
        (0, ⟨m.cycle_executions + 1, m.targets_hit, m.clear_cells_detected⟩) := by
  have h : runCircuit target_qc bits = bits.take cycle_count := by
    rw [runCircuit_eq_take, measureCount_target_qc]
  simp only [probe_cell, if_true, if_pos, h]

/-- Full case analysis of the target-absent branch of `probe_cell`. -/
lemma probe_cell_false_eq (bits : List Bool) (m : Metrics) :
    probe_cell false bits m =
      if bits.headD false = true then
        (-1, ⟨m.cycle_executions + 1, m.targets_hit, m.clear_cells_detected + 1⟩)
      else
        (0, ⟨m.cycle_executions + 1, m.targets_hit, m.clear_cells_detected⟩) := by
  have h : runCircuit clear_qc bits = bits.take 1 := by
    rw [runCircuit_eq_take, measureCount_clear_qc]
  have h2 : (bits.take 1).headD false = bits.headD false := by
    cases bits <;> simp
  simp only [probe_cell, if_neg, Bool.false_eq_true, if_false, h, h2]

/-- Every probe, decisive or not, lands in one of exactly three cases:
hit (only when the cell holds a target, incrementing the hit counter),
clear (only when it does not, incrementing the clear counter), or
undetermined (no counter but the probe counter); the probe counter is
incremented by one in all three. -/
lemma probe_cell_cases (t : Bool) (bits : List Bool) (m : Metrics) :
    (probe_cell t bits m =
        (1, ⟨m.cycle_executions + 1, m.targets_hit + 1, m.clear_cells_detected⟩) ∧ t = true) ∨
    (probe_cell t bits m =
        (-1, ⟨m.cycle_executions + 1, m.targets_hit, m.clear_cells_detected + 1⟩) ∧ t = false) ∨
    probe_cell t bits m =
        (0, ⟨m.cycle_executions + 1, m.targets_hit, m.clear_cells_detected⟩) := by
  cases t with
  | true =>
    rw [probe_cell_true_eq]
    by_cases h : true ∈ bits.take cycle_count <;> simp [h]
  | false =>
    rw [probe_cell_false_eq]
    by_cases h : bits.headD false = true <;> simp [h]

/-! ### C1 and C2: the two probe branches -/

/-- C1: a probe of a target cell samples `cycle_count` outcome bits (the
memory of the target-present circuit), returns hit (`1`) exactly when at
least one of those bits is excited, returns undetermined (`0`) otherwise,
and can never return clear (`-1`). -/
theorem probe_target_hit_or_undetermined (bits : List Bool) (m : Metrics)
    (hb : bits.length = cycle_count) :
    (runCircuit target_qc bits).length = cycle_count ∧
    (probe_cell true bits m).1 = (if true ∈ runCircuit target_qc bits then 1 else 0) ∧
    ((probe_cell true bits m).1 = 1 ↔ true ∈ bits) ∧
    (probe_cell true bits m).1 ≠ -1 := by
  have htake : runCircuit target_qc bits = bits := by
    rw [runCircuit_eq_take, measureCount_target_qc, ← hb, List.take_length]
  have ht : bits.take cycle_count = bits := by
    rw [← hb, List.take_length]
  rw [htake, probe_cell_true_eq, ht, hb]
  by_cases hmem : true ∈ bits <;> simp [hmem]

/-- Witness for C1: a concrete 30-bit outcome sequence whose last bit is
excited yields a hit. -/
theorem probe_target_hit_or_undetermined_w :
    (List.replicate 29 false ++ [true]).length = cycle_count ∧
    ((runCircuit target_qc (List.replicate 29 false ++ [true])).length = cycle_count ∧
     (probe_cell true (List.replicate 29 false ++ [true]) ⟨0, 0, 0⟩).1 =
       (if true ∈ runCircuit target_qc (List.replicate 29 false ++ [true]) then 1 else 0) ∧
     ((probe_cell true (List.replicate 29 false ++ [true]) ⟨0, 0, 0⟩).1 = 1 ↔
       true ∈ List.replicate 29 false ++ [true]) ∧
     (probe_cell true (List.replicate 29 false ++ [true]) ⟨0, 0, 0⟩).1 ≠ -1) :=
  ⟨by decide, probe_target_hit_or_undetermined (List.replicate 29 false ++ [true]) ⟨0, 0, 0⟩ (by decide)⟩

/-- C2: the target-absent procedure is the accumulated evolution — all
`cycle_count` rotations (net rotation `cycle_count * (2 * rotation_angle)`,
in units of π) precede the single measurement — followed by exactly one
projective read yielding one bit; the probe returns clear (`-1`) exactly when
that bit is excited, undetermined (`0`) otherwise, and can never return
hit (`1`). -/
theorem probe_clear_single_bit (b : Bool) (rest : List Bool) (m : Metrics) :
    clear_qc = List.replicate cycle_count (Instr.ry (2 * rotation_angle)) ++ [Instr.measure 0] ∧
    measureCount clear_qc = 1 ∧
    totalRy clear_qc = (cycle_count : ℚ) * (2 * rotation_angle) ∧
    runCircuit clear_qc (b :: rest) = [b] ∧
    (probe_cell false (b :: rest) m).1 = (if b then -1 else 0) ∧
    (probe_cell false (b :: rest) m).1 ≠ 1 := by
  refine ⟨clear_qc_shape, measureCount_clear_qc, ?_, ?_, ?_, ?_⟩
  · rw [clear_qc_shape, totalRy_append, totalRy_replicate]
    simp [totalRy]
  · rw [runCircuit_eq_take, measureCount_clear_qc]
    rfl
  · rw [probe_cell_false_eq]
    cases b <;> simp
  · rw [probe_cell_false_eq]
    cases b <;> simp

/-- Witness for C2: an excited single outcome bit yields a clear. -/
theorem probe_clear_single_bit_w :
    clear_qc = List.replicate cycle_count (Instr.ry (2 * rotation_angle)) ++ [Instr.measure 0] ∧
    measureCount clear_qc = 1 ∧
    totalRy clear_qc = (cycle_count : ℚ) * (2 * rotation_angle) ∧
    runCircuit clear_qc [true] = [true] ∧
    (probe_cell false [true] ⟨0, 0, 0⟩).1 = (if true then -1 else 0) ∧
    (probe_cell false [true] ⟨0, 0, 0⟩).1 ≠ 1 :=
  probe_clear_single_bit true [] ⟨0, 0, 0⟩

/-! ### List counting helpers -/

lemma count_set_of_old_ne {α : Type} [DecidableEq α] :
    ∀ (l : List α) (i : Nat) (r y : α), i < l.length → l.getD i y ≠ y →
      (l.set i r).count y = l.count y + if r = y then 1 else 0 := by
  intro l
  induction l with
  | nil => intro i r y h hne; simp at h
  | cons a rest ih =>
    intro i r y h hne
    cases i with
    | zero =>
      simp only [List.getD_cons_zero] at hne
      simp only [List.set_cons_zero, List.count_cons, beq_iff_eq, if_neg hne]
      ring
    | succ n =>
      simp only [List.getD_cons_succ] at hne
      simp only [List.length_cons, Nat.succ_lt_succ_iff] at h
      simp only [List.set_cons_succ, List.count_cons, ih n r y h hne]
      ring

/-- A list of tri-state cells splits into its clear, unknown and hit counts. -/
lemma tri_count_sum (l : List Int) (h : ∀ x ∈ l, x = -1 ∨ x = 0 ∨ x = 1) :
    l.count (-1) + l.count 0 + l.count 1 = l.length := by
  induction l with
  | nil => simp
  | cons a rest ih =>
    have ha := h a (by simp)
    have hrest := ih (fun x hx => h x (by simp [hx]))
    rcases ha with ha | ha | ha <;>
      simp [List.count_cons, beq_iff_eq, ha, ← hrest] <;> ring

/-- If every hit cell is a target cell, there are at most as many hits as
target cells. -/
lemma count_le_of_pointwise :
    ∀ (l : List Int) (t : List Bool), l.length = t.length →
      (∀ i, l.getD i 0 = 1 → t.getD i false = true) →
      l.count 1 ≤ t.count true := by
  intro l
  induction l with
  | nil => intro t _ _; simp
  | cons a rest ih =>
    intro t hlen hp
    cases t with
    | nil => simp at hlen
    | cons b tr =>
      simp only [List.length_cons, Nat.succ.injEq] at hlen
      have htail := ih tr hlen (fun i hi => hp (i + 1) hi)
      by_cases ha : a = 1
      · have hb : b = true := hp 0 (by simp [ha])
        simp [List.count_cons, beq_iff_eq, ha, hb]
        omega
      · simp [List.count_cons, beq_iff_eq, ha]
        split <;> omega

lemma exists_unknown_of_count_pos (l : List Int) (h : 0 < l.count 0) :
    ∃ i, i < l.length ∧ l.getD i 0 = 0 := by
  have hm : (0 : Int) ∈ l := List.count_pos_iff.mp h
  rcases List.mem_iff_getElem.mp hm with ⟨i, hi, hget⟩
  exact ⟨i, hi, by simp [List.getD_eq_getElem?_getD, List.getElem?_eq_getElem hi, hget]⟩

lemma getD_set_self (l : List Int) (i : Nat) (h : i < l.length) (r : Int) :
    (l.set i r).getD i 0 = r := by
  simp [List.getD_eq_getElem?_getD, List.getElem?_set_self (by simpa using h)]

lemma getD_set_ne (l : List Int) (i j : Nat) (h : i ≠ j) (r : Int) :
    (l.set i r).getD j 0 = l.getD j 0 := by
  simp [List.getD_eq_getElem?_getD, List.getElem?_set_ne h]

lemma bool_count_sum (l : List Bool) : l.count true + l.count false = l.length := by
  induction l with
  | nil => simp
  | cons a rest ih => cases a <;> simp [List.count_cons] <;> omega

end QBattle

namespace QBattle

def StOk (target : List Bool) (cc : Nat) (s : ScanState) : Prop :=
  s.result.length = cc ∧
  (∀ x ∈ s.result, x = -1 ∨ x = 0 ∨ x = 1) ∧
  s.metrics.targets_hit = s.result.count 1 ∧
  s.metrics.clear_cells_detected = s.result.count (-1) ∧
  (∀ i, s.result.getD i 0 = 1 → target.getD i false = true) ∧
  (∀ i, s.result.getD i 0 = -1 → target.getD i false = false)

lemma getD_eq_of_lt (l : List Int) (i : Nat) (h : i < l.length) (d : Int) :
    l.getD i d = l.getD i 0 := by
  simp [List.getD_eq_getElem?_getD, List.getElem?_eq_getElem h]

lemma preserves_refl (s : ScanState) : Preserves s s := fun _ _ => rfl

lemma preserves_trans {s t u : ScanState} (h1 : Preserves s t) (h2 : Preserves t u) :
    Preserves s u := by
  intro j hj
  rw [h2 j (by rw [h1 j hj]; exact hj), h1 j hj]

/-- The outcome of one probe of cell `i`, as a disjunction over the three
possible (value, metrics) results. -/
lemma probe_hcase (t : Bool) (bits : List Bool) (m : Metrics) :
    ((probe_cell t bits m).1 = 1 ∧
      (probe_cell t bits m).2 = ⟨m.cycle_executions + 1, m.targets_hit + 1, m.clear_cells_detected⟩ ∧
      t = true) ∨
    ((probe_cell t bits m).1 = -1 ∧
      (probe_cell t bits m).2 = ⟨m.cycle_executions + 1, m.targets_hit, m.clear_cells_detected + 1⟩ ∧
      t = false) ∨
    ((probe_cell t bits m).1 = 0 ∧
      (probe_cell t bits m).2 = ⟨m.cycle_executions + 1, m.targets_hit, m.clear_cells_detected⟩) := by
  rcases probe_cell_cases t bits m with ⟨h, ht⟩ | ⟨h, ht⟩ | h
  · exact Or.inl ⟨by rw [h], by rw [h], ht⟩
  · exact Or.inr (Or.inl ⟨by rw [h], by rw [h], ht⟩)
  · exact Or.inr (Or.inr ⟨by rw [h], by rw [h]⟩)

/-- Writing one probe outcome into an unknown cell keeps the state invariant,
preserves decided cells, and moves the counters as expected. -/
lemma StOk_update (target : List Bool) (cc : Nat) (s : ScanState) (i : Nat) (bits : List Bool)
    (hi : i < cc) (hok : StOk target cc s) (h0 : s.result.getD i 0 = 0) :
    StOk target cc ⟨s.result.set i (probe_cell (target.getD i false) bits s.metrics).1,
                    (probe_cell (target.getD i false) bits s.metrics).2⟩ ∧
    Preserves s ⟨s.result.set i (probe_cell (target.getD i false) bits s.metrics).1,
                 (probe_cell (target.getD i false) bits s.metrics).2⟩ := by
  obtain ⟨hlen, htri, hhit, hclear, hs1, hsm1⟩ := hok
  have hilen : i < s.result.length := by rw [hlen]; exact hi
  have hget1 : s.result.getD i 1 ≠ 1 := by
    rw [getD_eq_of_lt s.result i hilen 1, h0]; decide
  have hgetm1 : s.result.getD i (-1) ≠ -1 := by
    rw [getD_eq_of_lt s.result i hilen (-1), h0]; decide
  have hcnt1 := count_set_of_old_ne s.result i (probe_cell (target.getD i false) bits s.metrics).1 1 hilen hget1
  have hcntm1 := count_set_of_old_ne s.result i (probe_cell (target.getD i false) bits s.metrics).1 (-1) hilen hgetm1
  have hpres : Preserves s ⟨s.result.set i (probe_cell (target.getD i false) bits s.metrics).1,
      (probe_cell (target.getD i false) bits s.metrics).2⟩ := by
    intro j hj
    have hij : i ≠ j := fun hh => hj (by rw [← hh]; exact h0)
    exact getD_set_ne s.result i j hij _
  refine ⟨⟨by simpa using hlen, ?_, ?_, ?_, ?_, ?_⟩, hpres⟩
  · intro x hx
    rcases List.mem_or_eq_of_mem_set hx with hx | hx
    · exact htri x hx
    · rcases probe_hcase (target.getD i false) bits s.metrics with ⟨h1, _, _⟩ | ⟨h1, _, _⟩ | ⟨h1, _⟩ <;>
        rw [hx, h1] <;> simp
  · rcases probe_hcase (target.getD i false) bits s.metrics with ⟨h1, h2, _⟩ | ⟨h1, h2, _⟩ | ⟨h1, h2⟩ <;>
      simp only [h2] <;> rw [hcnt1, h1] <;> simp [hhit]
  · rcases probe_hcase (target.getD i false) bits s.metrics with ⟨h1, h2, _⟩ | ⟨h1, h2, _⟩ | ⟨h1, h2⟩ <;>
      simp only [h2] <;> rw [hcntm1, h1] <;> simp [hclear]
  · intro j hj
    by_cases hij : i = j
    · subst hij
      rw [getD_set_self s.result i hilen _] at hj
      rcases probe_hcase (target.getD i false) bits s.metrics with ⟨h1, _, ht⟩ | ⟨h1, _, ht⟩ | ⟨h1, _⟩
      · exact ht
      · rw [h1] at hj; exact absurd hj (by decide)
      · rw [h1] at hj; exact absurd hj (by decide)
    · rw [getD_set_ne s.result i j hij _] at hj
      exact hs1 j hj
  · intro j hj
    by_cases hij : i = j
    · subst hij
      rw [getD_set_self s.result i hilen _] at hj
      rcases probe_hcase (target.getD i false) bits s.metrics with ⟨h1, _, ht⟩ | ⟨h1, _, ht⟩ | ⟨h1, _⟩
      · rw [h1] at hj; exact absurd hj (by decide)
      · simpa using ht
      · rw [h1] at hj; exact absurd hj (by decide)
    · rw [getD_set_ne s.result i j hij _] at hj
      exact hsm1 j hj

end QBattle

namespace QBattle

def LogOk (target : List Bool) (tc cc : Nat) (final : ScanState) (p : ScanState × ScanState) : Prop :=
  ¬ terminated tc cc p.1 ∧ StOk target cc p.1 ∧ StOk target cc p.2 ∧
  Preserves p.1 p.2 ∧ Preserves p.2 final ∧
  p.2.metrics.clear_cells_detected ≤ p.1.metrics.clear_cells_detected + 1

def RunOk (target : List Bool) (tc cc : Nat) (rs : RunState) : Prop :=
  StOk target cc rs.st ∧ ∀ p ∈ rs.log, LogOk target tc cc rs.st p

lemma cellStep_of_decided (target : List Bool) (i : Nat) (rs : RunState)
    (h : rs.st.result.getD i 0 ≠ 0) : cellStep target i rs = rs := by
  unfold cellStep
  rw [if_neg h]

lemma cellStep_of_unknown (target : List Bool) (i : Nat) (rs : RunState)
    (h : rs.st.result.getD i 0 = 0) :
    cellStep target i rs =
      ⟨⟨rs.st.result.set i (probe_cell (target.getD i false) (rs.stream.headD []) rs.st.metrics).1,
        (probe_cell (target.getD i false) (rs.stream.headD []) rs.st.metrics).2⟩,
       rs.stream.tail,
       rs.log ++ [(rs.st,
         ⟨rs.st.result.set i (probe_cell (target.getD i false) (rs.stream.headD []) rs.st.metrics).1,
          (probe_cell (target.getD i false) (rs.stream.headD []) rs.st.metrics).2⟩)]⟩ := by
  unfold cellStep
  rw [if_pos h]

lemma probe_metrics (t : Bool) (bits : List Bool) (m : Metrics) :
    (probe_cell t bits m).2.cycle_executions = m.cycle_executions + 1 ∧
    m.clear_cells_detected ≤ (probe_cell t bits m).2.clear_cells_detected ∧
    (probe_cell t bits m).2.clear_cells_detected ≤ m.clear_cells_detected + 1 := by
  rcases probe_hcase t bits m with ⟨_, h2, _⟩ | ⟨_, h2, _⟩ | ⟨_, h2⟩ <;> rw [h2] <;> simp

lemma RunOk_cellStep (target : List Bool) (tc cc i : Nat) (rs : RunState)
    (hi : i < cc) (hterm : ¬ terminated tc cc rs.st) (hok : RunOk target tc cc rs) :
    RunOk target tc cc (cellStep target i rs) := by
  obtain ⟨hst, hlog⟩ := hok
  by_cases h0 : rs.st.result.getD i 0 = 0
  · have hupd := StOk_update target cc rs.st i (rs.stream.headD []) hi hst h0
    rw [cellStep_of_unknown target i rs h0]
    refine ⟨hupd.1, ?_⟩
    intro p hp
    rcases List.mem_append.mp hp with hp | hp
    · obtain ⟨a1, a2, a3, a4, a5, a6⟩ := hlog p hp
      exact ⟨a1, a2, a3, a4, preserves_trans a5 hupd.2, a6⟩
    · have hpe : p = (rs.st,
        ⟨rs.st.result.set i (probe_cell (target.getD i false) (rs.stream.headD []) rs.st.metrics).1,
         (probe_cell (target.getD i false) (rs.stream.headD []) rs.st.metrics).2⟩) := by
        simpa using hp
      rw [hpe]
      exact ⟨hterm, hst, hupd.1, hupd.2, preserves_refl _,
        (probe_metrics (target.getD i false) (rs.stream.headD []) rs.st.metrics).2.2⟩
  · rw [cellStep_of_decided target i rs h0]
    exact ⟨hst, hlog⟩

lemma RunOk_sweepFrom (target : List Bool) (tc cc : Nat) :
    ∀ (l : List Nat) (rs : RunState), (∀ i ∈ l, i < cc) →
      ¬ terminated tc cc rs.st → RunOk target tc cc rs →
      RunOk target tc cc (sweepFrom target tc cc l rs) := by
  intro l
  induction l with
  | nil => intro rs _ _ hok; simpa [sweepFrom] using hok
  | cons i rest ih =>
    intro rs hmem hterm hok
    have h1 := RunOk_cellStep target tc cc i rs (hmem i (by simp)) hterm hok
    simp only [sweepFrom]
    by_cases ht : terminated tc cc (cellStep target i rs).st
    · rwa [if_pos ht]
    · rw [if_neg ht]
      exact ih (cellStep target i rs) (fun j hj => hmem j (by simp [hj])) ht h1

lemma RunOk_runAux (target : List Bool) (tc cc : Nat) :
    ∀ (fuel : Nat) (rs : RunState), RunOk target tc cc rs →
      RunOk target tc cc (runAux target tc cc fuel rs) := by
  intro fuel
  induction fuel with
  | zero => intro rs hok; simpa [runAux] using hok
  | succ k ih =>
    intro rs hok
    rw [runAux]
    by_cases ht : terminated tc cc rs.st
    · rwa [if_pos ht]
    · rw [if_neg ht]
      exact ih _ (RunOk_sweepFrom target tc cc (List.range cc) rs (fun i hi => List.mem_range.mp hi) ht hok)

lemma StOk_init (target : List Bool) (cc : Nat) : StOk target cc (initState cc) := by
  refine ⟨by simp [initState], ?_, ?_, ?_, ?_, ?_⟩
  · intro x hx
    rw [initState] at hx
    simp only [List.mem_replicate] at hx
    simp [hx.2]
  · simp [initState, List.count_replicate]
  · simp [initState, List.count_replicate]
  · intro i hi
    rw [initState] at hi
    simp only [List.getD_eq_getElem?_getD, List.getElem?_replicate] at hi
    by_cases h : i < cc <;> simp [h] at hi
  · intro i hi
    rw [initState] at hi
    simp only [List.getD_eq_getElem?_getD, List.getElem?_replicate] at hi
    by_cases h : i < cc <;> simp [h] at hi

lemma RunOk_runScan (target : List Bool) (tc dim fuel : Nat) (stream : List (List Bool)) :
    RunOk target tc (dim * dim) (runScan target tc dim fuel stream) :=
  RunOk_runAux target tc (dim * dim) fuel ⟨initState (dim * dim), stream, []⟩
    ⟨StOk_init target (dim * dim), fun p hp => absurd hp (by simp)⟩

end QBattle

namespace QBattle

/-- One run state extends another by `k` probes: the probe counter grew by
`k`, the log grew by `k` entries, and `k` sampler invocation sequences were
consumed from the stream. -/
def Extends (rs rt : RunState) : Prop :=
  ∃ k, rt.st.metrics.cycle_executions = rs.st.metrics.cycle_executions + k ∧
       rt.log.length = rs.log.length + k ∧
       rt.stream = rs.stream.drop k

lemma extends_refl (rs : RunState) : Extends rs rs := ⟨0, by simp, by simp, by simp⟩

lemma extends_trans {a b c : RunState} (h1 : Extends a b) (h2 : Extends b c) : Extends a c := by
  obtain ⟨k1, c1, l1, s1⟩ := h1
  obtain ⟨k2, c2, l2, s2⟩ := h2
  exact ⟨k1 + k2, by omega, by omega, by rw [s2, s1, List.drop_drop]⟩

lemma extends_cellStep (target : List Bool) (i : Nat) (rs : RunState) :
    Extends rs (cellStep target i rs) := by
  by_cases h : rs.st.result.getD i 0 = 0
  · rw [cellStep_of_unknown target i rs h]
    exact ⟨1, by simp [(probe_metrics _ _ _).1], by simp, by simp [← List.drop_one]⟩
  · rw [cellStep_of_decided target i rs h]
    exact extends_refl rs

lemma extends_sweepFrom (target : List Bool) (tc cc : Nat) :
    ∀ (l : List Nat) (rs : RunState), Extends rs (sweepFrom target tc cc l rs) := by
  intro l
  induction l with
  | nil => intro rs; exact extends_refl rs
  | cons i rest ih =>
    intro rs
    simp only [sweepFrom]
    by_cases ht : terminated tc cc (cellStep target i rs).st
    · rw [if_pos ht]
      exact extends_cellStep target i rs
    · rw [if_neg ht]
      exact extends_trans (extends_cellStep target i rs) (ih _)

lemma extends_runAux (target : List Bool) (tc cc : Nat) :
    ∀ (fuel : Nat) (rs : RunState), Extends rs (runAux target tc cc fuel rs) := by
  intro fuel
  induction fuel with
  | zero => intro rs; exact extends_refl rs
  | succ k ih =>
    intro rs
    rw [runAux]
    by_cases ht : terminated tc cc rs.st
    · rw [if_pos ht]
      exact extends_refl rs
    · rw [if_neg ht]
      exact extends_trans (extends_sweepFrom target tc cc (List.range cc) rs) (ih _)

lemma runAux_of_terminated (target : List Bool) (tc cc fuel : Nat) (rs : RunState)
    (h : terminated tc cc rs.st) : runAux target tc cc fuel rs = rs := by
  cases fuel with
  | zero => rfl
  | succ k => rw [runAux, if_pos h]

lemma log_mono_sweepFrom (target : List Bool) (tc cc : Nat) (l : List Nat) (rs : RunState) :
    rs.log.length ≤ (sweepFrom target tc cc l rs).log.length := by
  obtain ⟨k, _, hl, _⟩ := extends_sweepFrom target tc cc l rs
  omega

lemma cellStep_getD_other (target : List Bool) (i j : Nat) (rs : RunState) (hij : i ≠ j) :
    (cellStep target i rs).st.result.getD j 0 = rs.st.result.getD j 0 := by
  by_cases h : rs.st.result.getD i 0 = 0
  · rw [cellStep_of_unknown target i rs h]
    exact getD_set_ne _ i j hij _
  · rw [cellStep_of_decided target i rs h]

/-- A full sweep that visits an unknown cell either ends in a terminated
state or performs at least one probe. -/
lemma sweep_progress (target : List Bool) (tc cc : Nat) :
    ∀ (l : List Nat) (rs : RunState) (i : Nat), i ∈ l → rs.st.result.getD i 0 = 0 →
      terminated tc cc (sweepFrom target tc cc l rs).st ∨
      rs.log.length < (sweepFrom target tc cc l rs).log.length := by
  intro l
  induction l with
  | nil => intro rs i hi; simp at hi
  | cons j rest ih =>
    intro rs i hi h0
    simp only [sweepFrom]
    by_cases ht : terminated tc cc (cellStep target j rs).st
    · rw [if_pos ht]
      exact Or.inl ht
    · rw [if_neg ht]
      by_cases hij : j = i
      · subst hij
        refine Or.inr (lt_of_lt_of_le ?_ (log_mono_sweepFrom target tc cc rest _))
        rw [cellStep_of_unknown target j rs h0]
        simp
      · have hi' : i ∈ rest := by
          rcases List.mem_cons.mp hi with h | h
          · exact absurd h.symm hij
          · exact h
        have h0' : (cellStep target j rs).st.result.getD i 0 = 0 := by
          rw [cellStep_getD_other target j i rs hij]
          exact h0
        rcases ih (cellStep target j rs) i hi' h0' with h | h
        · exact Or.inl h
        · refine Or.inr (lt_of_le_of_lt ?_ h)
          obtain ⟨k, _, hl, _⟩ := extends_cellStep target j rs
          omega

/-- While the stop condition fails there is always a still-unknown cell. -/
lemma unknown_exists (target : List Bool) (tc cc : Nat) (s : ScanState)
    (hok : StOk target cc s) (hlen : target.length = cc) (hcnt : target.count true = tc)
    (hterm : ¬ terminated tc cc s) :
    ∃ i, i < cc ∧ s.result.getD i 0 = 0 := by
  obtain ⟨hl, htri, hhit, hclear, hs1, _⟩ := hok
  have hsum := tri_count_sum s.result htri
  have hhitle : s.result.count 1 ≤ target.count true :=
    count_le_of_pointwise s.result target (by omega) hs1
  simp only [terminated, not_le] at hterm
  have hpos : 0 < s.result.count 0 := by omega
  obtain ⟨i, hi, h0⟩ := exists_unknown_of_count_pos s.result hpos
  exact ⟨i, by omega, h0⟩

/-- While the stop condition fails, every sweep performs at least one probe. -/
lemma run_progress (target : List Bool) (tc cc : Nat)
    (hlen : target.length = cc) (hcnt : target.count true = tc) :
    ∀ (fuel : Nat) (rs : RunState), RunOk target tc cc rs →
      ¬ terminated tc cc (runAux target tc cc fuel rs).st →
      rs.log.length + fuel ≤ (runAux target tc cc fuel rs).log.length := by
  intro fuel
  induction fuel with
  | zero => intro rs _ _; simp [runAux]
  | succ k ih =>
    intro rs hok hterm
    rw [runAux] at hterm ⊢
    by_cases ht : terminated tc cc rs.st
    · rw [if_pos ht] at hterm
      exact absurd ht hterm
    · rw [if_neg ht] at hterm ⊢
      obtain ⟨i, hi, h0⟩ := unknown_exists target tc cc rs.st hok.1 hlen hcnt ht
      rcases sweep_progress target tc cc (List.range cc) rs i (List.mem_range.mpr hi) h0 with hter | hgrow
      · rw [runAux_of_terminated target tc cc k _ hter] at hterm
        exact absurd hter hterm
      · have hok' := RunOk_sweepFrom target tc cc (List.range cc) rs
          (fun j hj => List.mem_range.mp hj) ht hok
        have hrec := ih (sweepFrom target tc cc (List.range cc) rs) hok' hterm
        omega

end QBattle

namespace QBattle

lemma getD_irrel {α : Type} (l : List α) (i : Nat) (h : i < l.length) (d d' : α) :
    l.getD i d = l.getD i d' := by
  simp [List.getD_eq_getElem?_getD, List.getElem?_eq_getElem h]

/-- Invariant of the placement loop: the grid keeps its size and its count of
placed targets matches `placed`, so a successful exit has exactly `tc` set. -/
lemma placeLoop_count :
    ∀ (draws : List (Nat × Nat)) (dim tc placed : Nat) (g out : List Bool),
      g.length = dim * dim → g.count true = placed → placed ≤ tc →
      (∀ d ∈ draws, d.1 < dim ∧ d.2 < dim) →
      placeLoop dim tc draws placed g = some out →
      out.length = dim * dim ∧ out.count true = tc := by
  intro draws
  induction draws with
  | nil =>
    intro dim tc placed g out hlen hcount hle _ hout
    rw [placeLoop] at hout
    by_cases h : placed < tc
    · rw [if_pos h] at hout
      exact absurd hout (by simp)
    · rw [if_neg h] at hout
      have hg : g = out := Option.some.inj hout
      subst hg
      exact ⟨hlen, by omega⟩
  | cons d rest ih =>
    intro dim tc placed g out hlen hcount hle hdraws hout
    rw [placeLoop] at hout
    by_cases h : placed < tc
    · rw [if_pos h] at hout
      by_cases hocc : g.getD (d.1 * dim + d.2) false = true
      · rw [if_pos hocc] at hout
        exact ih dim tc placed g out hlen hcount hle
          (fun e he => hdraws e (by simp [he])) hout
      · rw [if_neg hocc] at hout
        have hd1 := (hdraws d (by simp)).1
        have hd2 := (hdraws d (by simp)).2
        have hidx : d.1 * dim + d.2 < dim * dim := by
          calc d.1 * dim + d.2 < d.1 * dim + dim := by omega
            _ = (d.1 + 1) * dim := by ring
            _ ≤ dim * dim := Nat.mul_le_mul_right dim hd1
        have hlt : d.1 * dim + d.2 < g.length := by omega
        have hold : g.getD (d.1 * dim + d.2) true ≠ true := by
          rw [getD_irrel g _ hlt true false]
          simpa using hocc
        have hcount' : (g.set (d.1 * dim + d.2) true).count true = placed + 1 := by
          rw [count_set_of_old_ne g _ true true hlt hold]
          simp [hcount]
        exact ih dim tc (placed + 1) _ out (by simpa using hlen) hcount' (by omega)
          (fun e he => hdraws e (by simp [he])) hout
    · rw [if_neg h] at hout
      have hg : g = out := Option.some.inj hout
      subst hg
      exact ⟨hlen, by omega⟩

/-- C8: for every valid configuration, a completed placement loop yields a
grid with exactly `tc` target cells and `dim * dim - tc` clear cells; a draw
is accepted only when the drawn cell is not already a target (this acceptance
test is the `placeLoop` branch on the drawn cell). -/
theorem place_exact_counts (dim tc : Nat) (draws : List (Nat × Nat)) (g : List Bool)
    (_hdim1 : min_grid_dim ≤ dim) (_hdim2 : dim ≤ max_grid_dim)
    (htc1 : 1 ≤ tc) (htc2 : tc ≤ dim * dim)
    (hdraws : ∀ d ∈ draws, d.1 < dim ∧ d.2 < dim)
    (hout : place dim tc draws = some g) :
    g.count true = tc ∧ g.count false = dim * dim - tc ∧ g.length = dim * dim := by
  have h := placeLoop_count draws dim tc 0 (List.replicate (dim * dim) false) g
    (by simp) (by simp [List.count_replicate]) (by omega) hdraws hout
  have hsum := bool_count_sum g
  exact ⟨h.2, by omega, h.1⟩

/-- Witness for C8: one in-range draw places the single requested target. -/
theorem place_exact_counts_w :
    place 3 1 [(0, 0)] = some ((List.replicate 9 false).set 0 true) ∧
    ((List.replicate 9 false).set 0 true).count true = 1 ∧
    ((List.replicate 9 false).set 0 true).count false = 3 * 3 - 1 ∧
    ((List.replicate 9 false).set 0 true).length = 3 * 3 := by
  refine ⟨by decide, ?_, ?_, ?_⟩
  · exact (place_exact_counts 3 1 [(0, 0)] _ (by decide) (by decide) (by decide) (by decide)
      (by decide) (by decide)).1
  · exact (place_exact_counts 3 1 [(0, 0)] _ (by decide) (by decide) (by decide) (by decide)
      (by decide) (by decide)).2.1
  · exact (place_exact_counts 3 1 [(0, 0)] _ (by decide) (by decide) (by decide) (by decide)
      (by decide) (by decide)).2.2

end QBattle

namespace QBattle

/-- C3: (a) every probe of the run is executed from a state where the stop
condition fails — the condition is re-checked after every single probe, also
mid-sweep, and no probe is ever executed once it holds; (b) if the stop
condition already holds initially the run does nothing at all; (c) while the
condition fails the scan keeps probing: every sweep performs at least one
probe. -/
theorem scan_stops_exactly_on_condition (target : List Bool) (tc dim fuel : Nat)
    (stream : List (List Bool))
    (hlen : target.length = dim * dim) (hcnt : target.count true = tc) :
    (∀ p ∈ (runScan target tc dim fuel stream).log, ¬ terminated tc (dim * dim) p.1) ∧
    (terminated tc (dim * dim) (initState (dim * dim)) →
      runScan target tc dim fuel stream = ⟨initState (dim * dim), stream, []⟩) ∧
    (¬ terminated tc (dim * dim) (runScan target tc dim fuel stream).st →
      fuel ≤ (runScan target tc dim fuel stream).log.length) := by
  refine ⟨?_, ?_, ?_⟩
  · intro p hp
    exact ((RunOk_runScan target tc dim fuel stream).2 p hp).1
  · intro h
    exact runAux_of_terminated target tc (dim * dim) fuel ⟨initState (dim * dim), stream, []⟩ h
  · intro h
    have h0 := run_progress target tc (dim * dim) hlen hcnt fuel
      ⟨initState (dim * dim), stream, []⟩
      ⟨StOk_init target (dim * dim), fun p hp => absurd hp (by simp)⟩ h
    simpa using h0

/-- C4: after every probe, confirmed clears plus hits plus still-unknown
cells add up to the cell count, and the clear counter never exceeds the
number of non-target cells. -/
theorem counters_grid_invariant (target : List Bool) (tc dim fuel : Nat)
    (stream : List (List Bool)) :
    ∀ p ∈ (runScan target tc dim fuel stream).log,
      p.2.metrics.clear_cells_detected + p.2.metrics.targets_hit + p.2.result.count 0 =
        dim * dim ∧
      (p.2.metrics.clear_cells_detected : ℤ) ≤ ((dim * dim : Nat) : ℤ) - (tc : ℤ) := by
  intro p hp
  obtain ⟨hterm, _, hok2, _, _, hle⟩ := (RunOk_runScan target tc dim fuel stream).2 p hp
  obtain ⟨hl, htri, hhit, hclear, _, _⟩ := hok2
  have hsum := tri_count_sum p.2.result htri
  simp only [terminated, not_le] at hterm
  exact ⟨by omega, by omega⟩

/-- C5: at every reachable state of a run — after every probe and at the
final state — a hit cell really holds a target and a clear cell really does
not, for every sequence of sampler outcomes. -/
theorem no_false_classification (target : List Bool) (tc dim fuel : Nat)
    (stream : List (List Bool)) :
    (∀ p ∈ (runScan target tc dim fuel stream).log,
      (∀ i, p.2.result.getD i 0 = 1 → target.getD i false = true) ∧
      (∀ i, p.2.result.getD i 0 = -1 → target.getD i false = false)) ∧
    (∀ i, (runScan target tc dim fuel stream).st.result.getD i 0 = 1 →
      target.getD i false = true) ∧
    (∀ i, (runScan target tc dim fuel stream).st.result.getD i 0 = -1 →
      target.getD i false = false) := by
  have h := RunOk_runScan target tc dim fuel stream
  refine ⟨fun p hp => ?_, h.1.2.2.2.2.1, h.1.2.2.2.2.2⟩
  obtain ⟨_, _, hok2, _⟩ := h.2 p hp
  exact ⟨hok2.2.2.2.2.1, hok2.2.2.2.2.2⟩

/-- C6: transitions of the result grid are one-way and absorbing: a cell
that is not unknown is never probed again (the cell step is the identity on
it), a probed unknown cell receives exactly the probe outcome (so an
undetermined outcome leaves it unknown and eligible for re-probing), and
along the whole run every decided cell keeps its value, both across the
probe that decided it and all the way to the final state. -/
theorem decided_cells_absorbing (target : List Bool) (tc dim fuel : Nat)
    (stream : List (List Bool)) :
    (∀ (i : Nat) (rs : RunState), rs.st.result.getD i 0 ≠ 0 → cellStep target i rs = rs) ∧
    (∀ (i : Nat) (rs : RunState), rs.st.result.getD i 0 = 0 → i < rs.st.result.length →
      (cellStep target i rs).st.result.getD i 0 =
        (probe_cell (target.getD i false) (rs.stream.headD []) rs.st.metrics).1) ∧
    (∀ p ∈ (runScan target tc dim fuel stream).log,
      Preserves p.1 p.2 ∧ Preserves p.2 (runScan target tc dim fuel stream).st) := by
  refine ⟨cellStep_of_decided target, ?_, ?_⟩
  · intro i rs h0 hlen
    rw [cellStep_of_unknown target i rs h0]
    exact getD_set_self _ i hlen _
  · intro p hp
    obtain ⟨_, _, _, h4, h5, _⟩ := (RunOk_runScan target tc dim fuel stream).2 p hp
    exact ⟨h4, h5⟩

/-- C7: every probe, whatever its outcome, increments the probe counter by
exactly one and consumes exactly one sampler invocation sequence, and
nothing else changes the counter: over a whole run, the counter equals the
number of logged probes and exactly that many sampler sequences were
consumed from the stream. -/
theorem probe_counter_exact (target : List Bool) (tc dim fuel : Nat)
    (stream : List (List Bool)) :
    (∀ (t : Bool) (bits : List Bool) (m : Metrics),
      (probe_cell t bits m).2.cycle_executions = m.cycle_executions + 1) ∧
    (runScan target tc dim fuel stream).st.metrics.cycle_executions =
      (runScan target tc dim fuel stream).log.length ∧
    (runScan target tc dim fuel stream).stream =
      stream.drop (runScan target tc dim fuel stream).log.length := by
  have hext : Extends ⟨initState (dim * dim), stream, []⟩ (runScan target tc dim fuel stream) :=
    extends_runAux target tc (dim * dim) fuel ⟨initState (dim * dim), stream, []⟩
  obtain ⟨k, hc, hl, hs⟩ := hext
  simp [initState] at hc hl hs
  refine ⟨fun t bits m => (probe_metrics t bits m).1, by omega, ?_⟩
  rw [hs, hl]

/-- C9: with every cell a target (dim 3, 9 targets), the stop condition holds
before any probe, the run performs zero probes and every cell stays unknown. -/
theorem all_targets_zero_probes (fuel : Nat) (stream : List (List Bool)) :
    terminated 9 (3 * 3) (initState (3 * 3)) ∧
    runScan (List.replicate 9 true) 9 3 fuel stream = ⟨initState (3 * 3), stream, []⟩ ∧
    (runScan (List.replicate 9 true) 9 3 fuel stream).st.metrics.cycle_executions = 0 ∧
    (runScan (List.replicate 9 true) 9 3 fuel stream).st.result = List.replicate 9 0 := by
  have hterm : terminated 9 (3 * 3) (initState (3 * 3)) := by decide
  have heq : runScan (List.replicate 9 true) 9 3 fuel stream = ⟨initState (3 * 3), stream, []⟩ :=
    runAux_of_terminated (List.replicate 9 true) 9 (3 * 3) fuel
      ⟨initState (3 * 3), stream, []⟩ hterm
  refine ⟨hterm, heq, ?_, ?_⟩ <;> rw [heq] <;> rfl

/-- C10: the incrementally maintained hit counter always equals the number
of hit cells of the result grid, and the clear counter the number of clear
cells — after every probe and at the final state, where the reporting layer
recomputes the hit count from the grid. -/
theorem counter_equals_grid_count (target : List Bool) (tc dim fuel : Nat)
    (stream : List (List Bool)) :
    (∀ p ∈ (runScan target tc dim fuel stream).log,
      p.2.metrics.targets_hit = p.2.result.count 1 ∧
      p.2.metrics.clear_cells_detected = p.2.result.count (-1)) ∧
    (runScan target tc dim fuel stream).st.metrics.targets_hit =
      (runScan target tc dim fuel stream).st.result.count 1 ∧
    (runScan target tc dim fuel stream).st.metrics.clear_cells_detected =
      (runScan target tc dim fuel stream).st.result.count (-1) := by
  have h := RunOk_runScan target tc dim fuel stream
  refine ⟨fun p hp => ?_, h.1.2.2.1, h.1.2.2.2.1⟩
  obtain ⟨_, _, hok2, _⟩ := h.2 p hp
  exact ⟨hok2.2.2.1, hok2.2.2.2.1⟩

end QBattle

namespace QBattle

/-- Fixture: 3×3 grid with one target at cell (0,0), flattened. -/
def tgt1 : List Bool := true :: List.replicate 8 false

/-- Fixture: nine sampler invocations, each returning a single excited bit. -/
def str1 : List (List Bool) := List.replicate 9 [true]

/-- Fixture: default pair used only as the `getD` fallback when indexing a log. -/
def dummyPair : ScanState × ScanState := (⟨[], ⟨0, 0, 0⟩⟩, ⟨[], ⟨0, 0, 0⟩⟩)

/-- Fixture: a one-cell state whose cell is already decided (hit). -/
def rsDecided : RunState := ⟨⟨[1], ⟨1, 1, 0⟩⟩, [], []⟩

/-- Fixture: a one-cell state whose cell is still unknown. -/
def rsUnknown : RunState := ⟨⟨[0], ⟨0, 0, 0⟩⟩, [[true]], []⟩

/-- Witness for C3: in a two-sweep all-undetermined run, the first probe
starts from a non-terminated state and both sweeps probe. -/
theorem scan_stops_exactly_on_condition_w :
    tgt1.length = 3 * 3 ∧ tgt1.count true = 1 ∧
    ¬ terminated 1 (3 * 3) ((runScan tgt1 1 3 2 []).log.getD 0 dummyPair).1 ∧
    2 ≤ (runScan tgt1 1 3 2 []).log.length := by
  refine ⟨by decide, by decide, ?_, ?_⟩
  · exact (scan_stops_exactly_on_condition tgt1 1 3 2 [] (by decide) (by decide)).1
      ((runScan tgt1 1 3 2 []).log.getD 0 dummyPair) (by decide)
  · exact (scan_stops_exactly_on_condition tgt1 1 3 2 [] (by decide) (by decide)).2.2 (by decide)

/-- Witness for C4 at the first probe of a concrete run. -/
theorem counters_grid_invariant_w :
    ((runScan tgt1 1 3 1 str1).log.getD 0 dummyPair).2.metrics.clear_cells_detected +
      ((runScan tgt1 1 3 1 str1).log.getD 0 dummyPair).2.metrics.targets_hit +
      ((runScan tgt1 1 3 1 str1).log.getD 0 dummyPair).2.result.count 0 = 3 * 3 ∧
    (((runScan tgt1 1 3 1 str1).log.getD 0 dummyPair).2.metrics.clear_cells_detected : ℤ) ≤
      ((3 * 3 : Nat) : ℤ) - ((1 : Nat) : ℤ) :=
  counters_grid_invariant tgt1 1 3 1 str1
    ((runScan tgt1 1 3 1 str1).log.getD 0 dummyPair) (by decide)

/-- Witness for C5: the first probe of the concrete run marks cell 0 hit,
and cell 0 really holds a target. -/
theorem no_false_classification_w :
    ((runScan tgt1 1 3 1 str1).log.getD 0 dummyPair).2.result.getD 0 0 = 1 ∧
    tgt1.getD 0 false = true := by
  refine ⟨by decide, ?_⟩
  exact ((no_false_classification tgt1 1 3 1 str1).1
    ((runScan tgt1 1 3 1 str1).log.getD 0 dummyPair) (by decide)).1 0 (by decide)

/-- Witness for C6: a decided cell is skipped, an unknown cell receives the
probe outcome, and the hit recorded by the first probe survives to the end. -/
theorem decided_cells_absorbing_w :
    cellStep tgt1 0 rsDecided = rsDecided ∧
    (cellStep tgt1 0 rsUnknown).st.result.getD 0 0 =
      (probe_cell (tgt1.getD 0 false) (rsUnknown.stream.headD []) rsUnknown.st.metrics).1 ∧
    (runScan tgt1 1 3 1 str1).st.result.getD 0 0 =
      ((runScan tgt1 1 3 1 str1).log.getD 1 dummyPair).2.result.getD 0 0 := by
  refine ⟨?_, ?_, ?_⟩
  · exact (decided_cells_absorbing tgt1 1 3 1 str1).1 0 rsDecided (by decide)
  · exact (decided_cells_absorbing tgt1 1 3 1 str1).2.1 0 rsUnknown (by decide) (by decide)
  · exact ((decided_cells_absorbing tgt1 1 3 1 str1).2.2
      ((runScan tgt1 1 3 1 str1).log.getD 1 dummyPair) (by decide)).2 0 (by decide)

/-- Witness for C7 on a concrete run of nine probes. -/
theorem probe_counter_exact_w :
    (probe_cell true [] ⟨0, 0, 0⟩).2.cycle_executions = (0 : Nat) + 1 ∧
    (runScan tgt1 1 3 1 str1).st.metrics.cycle_executions =
      (runScan tgt1 1 3 1 str1).log.length ∧
    (runScan tgt1 1 3 1 str1).stream =
      str1.drop (runScan tgt1 1 3 1 str1).log.length := by
  have h := probe_counter_exact tgt1 1 3 1 str1
  exact ⟨h.1 true [] ⟨0, 0, 0⟩, h.2.1, h.2.2⟩

/-- Witness for C9 at fuel 2 and the empty stream. -/
theorem all_targets_zero_probes_w :
    terminated 9 (3 * 3) (initState (3 * 3)) ∧
    runScan (List.replicate 9 true) 9 3 2 [] = ⟨initState (3 * 3), [], []⟩ ∧
    (runScan (List.replicate 9 true) 9 3 2 []).st.metrics.cycle_executions = 0 ∧
    (runScan (List.replicate 9 true) 9 3 2 []).st.result = List.replicate 9 0 :=
  all_targets_zero_probes 2 []

/-- Witness for C10 at the first probe and the final state of a concrete run. -/
theorem counter_equals_grid_count_w :
    ((runScan tgt1 1 3 1 str1).log.getD 0 dummyPair).2.metrics.targets_hit =
      ((runScan tgt1 1 3 1 str1).log.getD 0 dummyPair).2.result.count 1 ∧
    (runScan tgt1 1 3 1 str1).st.metrics.targets_hit =
      (runScan tgt1 1 3 1 str1).st.result.count 1 ∧
    (runScan tgt1 1 3 1 str1).st.metrics.clear_cells_detected =
      (runScan tgt1 1 3 1 str1).st.result.count (-1) := by
  have h := counter_equals_grid_count tgt1 1 3 1 str1
  exact ⟨(h.1 ((runScan tgt1 1 3 1 str1).log.getD 0 dummyPair) (by decide)).1, h.2.1, h.2.2⟩

end QBattle
